import Mathlib

/-!
Shallow embedding of the studio-mcp blueprint engine
(`internal/blueprint`: the current-revision tokenizer with
`findNextTemplate`/`parseField`, `FromArgs`, `GenerateInputSchema` from
`schema.go`, the renderer from `render.go`, and `GetCommandFormat` from
`types.go`).  Strings are manipulated at the character-list level so that
every definition is executable and kernel-reducible; each helper mirrors
the corresponding Go standard-library call it replaces.
-/

namespace Studio

/-- A dynamic value supplied to the renderer.  Models Go's
`map[string]interface{}` payloads: strings, booleans, JSON arrays
(`[]interface{}`, whose elements may in turn be any value) and JSON null.
Go's `[]string` case behaves identically to an `[]interface{}` holding
only strings, so both are modelled by `arr`. -/
inductive Value where
  | str (s : String)
  | bool (b : Bool)
  | arr (items : List Value)
  | null
deriving Repr

/-- A token of a tokenized shell word (`types.go`).  `field` carries
`Name`, `Description`, `Required`, `IsArray` and `OriginalFlag` exactly as
the Go `FieldToken` struct does; `text` is `TextToken`. -/
inductive Token where
  | text (value : String)
  | field (name description : String) (required isArray : Bool) (originalFlag : String)
deriving DecidableEq, Repr

/-- A parsed command template (`types.go` `Blueprint`): the verbatim base
command plus the tokenized shell words (one entry per argv element). -/
structure Blueprint where
  baseCommand : String
  shellWords : List (List Token)
deriving DecidableEq, Repr

/-- One schema property (`jsonschema.Schema` as used by this package):
its `type`, `description` and, for arrays, the item type. -/
structure PropSchema where
  type : String
  description : String
  items : Option String
deriving DecidableEq, Repr

/-- The generated input schema: property map (association list in
insertion order, keys unique) and the `required` name list.  The constant
`"object"` top-level type is left implicit. -/
structure InputSchema where
  properties : List (String × PropSchema)
  required : List String
deriving DecidableEq, Repr

/-- Go `unicode.IsSpace` restricted to the code points that can occur in
this development (ASCII whitespace plus NEL and NBSP). -/
def goIsSpace (c : Char) : Bool :=
  c = ' ' || c = '\t' || c = '\n' || c = '\x0b' || c = '\x0c' || c = '\r' ||
  c = '\u0085' || c = ' '

/-- Drop leading and trailing whitespace from a character list
(Go `strings.TrimSpace`). -/
def trimChars (l : List Char) : List Char :=
  ((l.dropWhile goIsSpace).reverse.dropWhile goIsSpace).reverse

/-- Go `strings.TrimSpace` on strings. -/
def goTrimSpace (s : String) : String :=
  String.mk (trimChars s.toList)

/-- Replace every dash by an underscore (Go
`strings.ReplaceAll(name, "-", "_")`; the pattern is a single character,
so the replacement is a character map). -/
def dashToUnderscore (c : Char) : Char :=
  if c = '-' then '_' else c

/-- Replace every underscore by a dash (Go
`strings.ReplaceAll(name, "_", "-")`). -/
def underscoreToDash (c : Char) : Char :=
  if c = '_' then '-' else c

/-- `normalizeFieldName` from `render.go`: dashes become underscores. -/
def normalizeFieldName (s : String) : String :=
  String.mk (s.toList.map dashToUnderscore)

/-- The reverse direction used by `findParamValue`: underscores become
dashes. -/
def denormalizeFieldName (s : String) : String :=
  String.mk (s.toList.map underscoreToDash)

/-- Go `strings.Contains(s, "_")` for the single character underscore. -/
def containsUnderscore (s : String) : Bool :=
  s.toList.contains '_'

/-- First index at which `needle` occurs as a contiguous sublist of `l`
(Go `strings.Index`; `none` models the return value `-1`).  The needles
used are never empty. -/
def indexOfSub? (l needle : List Char) : Option Nat :=
  if needle.isPrefixOf l then some 0
  else
    match l with
    | [] => none
    | _ :: t => (indexOfSub? t needle).map (· + 1)

/-- Split a character list at the first occurrence of `c`
(Go `strings.SplitN(s, "#", 2)`): the part before, and the part after if
`c` occurs. -/
def splitFirst : List Char → Char → List Char × Option (List Char)
  | [], _ => ([], none)
  | h :: t, c =>
    if h = c then ([], some t)
    else
      let r := splitFirst t c
      (h :: r.1, r.2)

/-- `parseField` from `parse.go`: parse a field enclosed in double braces
or brackets into a `FieldToken`, or `none` when the content is not a
valid field (empty name), in which case the caller emits literal text. -/
def parseField (fieldChars : List Char) : Option Token :=
  let parseContent : List Char → Bool → Option Token := fun content required =>
    let split := splitFirst content '#'
    let name := trimChars split.1
    if name.isEmpty then none
    else
      let description := match split.2 with
        | some d => trimChars d
        | none => []
      let arrSplit : Bool × List Char :=
        if [ '.', '.', '.' ].isSuffixOf name then
          (true, trimChars (name.take (name.length - 3)))
        else (false, name)
      let isArr := arrSplit.1
      let name1 := arrSplit.2
      let flagSplit : List Char × List Char × List Char :=
        if !required && (match name1 with | '-' :: _ => true | _ => false) then
          (name1, name1.dropWhile (fun c => c = '-'),
            if description.isEmpty then
              ("Enable ".toList ++ name1 ++ " flag".toList)
            else description)
        else ([], name1, description)
    some (Token.field (String.mk flagSplit.2.1) (String.mk flagSplit.2.2)
        required isArr (String.mk flagSplit.1))
  if [ '\x7b', '\x7b' ].isPrefixOf fieldChars && [ '\x7d', '\x7d' ].isSuffixOf fieldChars then
    parseContent ((fieldChars.drop 2).take (fieldChars.length - 4)) true
  else if [ '[' ].isPrefixOf fieldChars && [ ']' ].isSuffixOf fieldChars then
    parseContent ((fieldChars.drop 1).take (fieldChars.length - 2)) false
  else
    none

/-- `findNextTemplate` from `parse.go`: locate the next template in the
remaining characters, returning its start offset and (exclusive) end
offset.  A double-brace opener wins when it comes strictly before a
bracket; a missing closer yields `none` (the caller then treats the rest
as literal text). -/
def findNextTemplate (remaining : List Char) : Option (Nat × Nat) :=
  let requiredStart := indexOfSub? remaining [ '\x7b', '\x7b' ]
  let optionalStart := indexOfSub? remaining [ '[' ]
  let chosen : Option (Nat × List Char × Nat) :=
    match requiredStart, optionalStart with
    | some r, some o => if r < o then some (r, [ '\x7d', '\x7d' ], 2) else some (o, [ ']' ], 1)
    | some r, none => some (r, [ '\x7d', '\x7d' ], 2)
    | none, some o => some (o, [ ']' ], 1)
    | none, none => none
  match chosen with
  | none => none
  | some (nextStart, endMarker, markerLength) =>
    match indexOfSub? (remaining.drop nextStart) endMarker with
    | none => none
    | some endIndex => some (nextStart, nextStart + endIndex + markerLength)

/-- The scanning loop of `tokenizeShellWord`.  The fuel argument bounds
the number of iterations: every recognised template consumes at least one
character, so fuel equal to the word length is always sufficient, and the
zero-fuel branch coincides with the loop exit on an exhausted input. -/
def tokenizeLoop : Nat → List Char → List Token
  | 0, _ => []
  | _ + 1, [] => []
  | fuel + 1, remaining =>
    match findNextTemplate remaining with
    | none => [Token.text (String.mk remaining)]
    | some se =>
      let beforeChars := remaining.take se.1
      let tmplChars := (remaining.drop se.1).take (se.2 - se.1)
      let restChars := remaining.drop se.2
      (if beforeChars.isEmpty then [] else [Token.text (String.mk beforeChars)]) ++
      (match parseField tmplChars with
        | some t => [t]
        | none => [Token.text (String.mk tmplChars)]) ++
      tokenizeLoop fuel restChars

/-- `tokenizeShellWord` from `parse.go`: tokenize one shell word; always
returns at least one token (a bare `TextToken` for template-free or fully
malformed input). -/
def tokenizeShellWord (word : String) : List Token :=
  let tokens := tokenizeLoop word.toList.length word.toList
  if tokens.isEmpty then [Token.text word] else tokens

/-- `FromArgs` from `parse.go`: build a `Blueprint`, rejecting an empty
argv and a blank base command.  Every argv element, the base command
included, is tokenized into `shellWords`. -/
def FromArgs (args : List String) : Except String Blueprint :=
  match args with
  | [] => Except.error "cannot create blueprint: no command provided"
  | cmd :: _ =>
    if goTrimSpace cmd = "" then
      Except.error "cannot create blueprint: empty command provided"
    else
      Except.ok { baseCommand := cmd, shellWords := args.map tokenizeShellWord }

/-- Replace the property stored under `key` (keys are unique). -/
def updateProp (props : List (String × PropSchema)) (key : String) (p : PropSchema) :
    List (String × PropSchema) :=
  props.map (fun q => if q.1 = key then (q.1, p) else q)

/-- One step of `GenerateInputSchema` (`schema.go`): fold a token into
the accumulated property list and required list. -/
def schemaAddToken (acc : List (String × PropSchema) × List String) (t : Token) :
    List (String × PropSchema) × List String :=
  match t with
  | Token.text _ => acc
  | Token.field name desc req isArr of =>
    let props := acc.1
    let required := acc.2
    let nn := normalizeFieldName name
    match props.lookup nn with
    | some existing =>
      let props1 :=
        if desc ≠ "" && existing.description = "" then
          updateProp props nn { existing with description := desc }
        else props
      let required1 :=
        if req && !(required.contains nn) then required ++ [nn] else required
      (props1, required1)
    | none =>
      if of ≠ "" then
        (props ++ [(nn,
          { type := "boolean"
            description := if desc = "" then "Enable " ++ of ++ " flag" else desc
            items := none })], required)
      else if isArr then
        (props ++ [(nn,
          { type := "array"
            description := if desc = "" then "Additional command line arguments" else desc
            items := some "string" })],
          if req && !(required.contains nn) then required ++ [nn] else required)
      else
        (props ++ [(nn, { type := "string", description := desc, items := none })],
          if req && !(required.contains nn) then required ++ [nn] else required)

/-- `GenerateInputSchema` from `schema.go`: walk every token of every
shell word in order and accumulate the property map and required list. -/
def GenerateInputSchema (bp : Blueprint) : InputSchema :=
  let acc := (bp.shellWords.flatten).foldl schemaAddToken ([], [])
  { properties := acc.1, required := acc.2 }

/-- `findParamValue` from `render.go`: three-way lookup — the exact key,
the dash-to-underscore form, then (when the field name contains an
underscore) the underscore-to-dash form. -/
def findParamValue (params : List (String × Value)) (fieldName : String) : Option Value :=
  match params.lookup fieldName with
  | some v => some v
  | none =>
    match params.lookup (normalizeFieldName fieldName) with
    | some v => some v
    | none =>
      if containsUnderscore fieldName then
        params.lookup (denormalizeFieldName fieldName)
      else none

/-- `hasValue` from `render.go`: is a value meaningful (non-empty string,
true boolean, non-empty array; null is Go's nil interface). -/
def hasValue : Value → Bool
  | Value.str s => s ≠ ""
  | Value.bool b => b
  | Value.arr items => !items.isEmpty
  | Value.null => false

mutual
/-- `valueToString` from `render.go`: strings pass through, booleans
print as `true`/`false`, everything else uses Go's generic `%v` form. -/
def valueToString : Value → String
  | Value.str s => s
  | Value.bool b => if b then "true" else "false"
  | Value.arr items => "[" ++ valueListToString items ++ "]"
  | Value.null => "<nil>"

/-- Elements of an array under `%v`: space separated. -/
def valueListToString : List Value → String
  | [] => ""
  | [v] => valueToString v
  | v :: rest => valueToString v ++ " " ++ valueListToString rest
end

/-- Extract the string elements of an array value (the
`[]interface{}` branch of `renderArrayField`: non-strings are skipped). -/
def stringElem? : Value → Option String
  | Value.str s => some s
  | _ => none

/-- `renderArrayField` from `render.go`: splice each string element of
the looked-up array as its own argv entry; an absent, non-array or empty
value contributes nothing. -/
def renderArrayField (name : String) (params : List (String × Value)) :
    Bool × List String :=
  match findParamValue params name with
  | none => (false, [])
  | some (Value.arr items) =>
    let strs := items.filterMap stringElem?
    (!strs.isEmpty, strs)
  | some _ => (false, [])

/-- `strings.Join(parts, "")`. -/
def concatParts : List String → String
  | [] => ""
  | [s] => s
  | s :: rest => s ++ concatParts rest

/-- `strings.Join(parts, sep)`. -/
def joinWith (sep : String) : List String → String
  | [] => ""
  | [s] => s
  | s :: rest => s ++ sep ++ joinWith sep rest

/-- The first scanning pass of `renderShellWord`: accumulate
(`hasRequiredContent`, `allOptionalFieldsEmpty`) over the word's
tokens. -/
def firstPassStep (params : List (String × Value)) (acc : Bool × Bool) (t : Token) :
    Bool × Bool :=
  match t with
  | Token.text _ => (true, acc.2)
  | Token.field n _ req _ _ =>
    match findParamValue params n with
    | some v =>
      if req then (true, false)
      else (acc.1, if hasValue v then false else acc.2)
    | none => if req then (true, acc.2) else acc

/-- The general concatenation path of `renderShellWord`: literal text
verbatim, found field values via `valueToString` (empty strings
dropped), joined into a single argv entry; an empty part list drops the
word. -/
def renderGeneral (params : List (String × Value)) (tokens : List Token) :
    Bool × List String :=
  let parts := tokens.foldl
    (fun acc t =>
      match t with
      | Token.text v => acc ++ [v]
      | Token.field n _ _ _ _ =>
        match findParamValue params n with
        | some v =>
          let sv := valueToString v
          if sv = "" then acc else acc ++ [sv]
        | none => acc)
    []
  if parts.isEmpty then (false, []) else (true, [concatParts parts])

/-- `renderSingleOptionalField` from `render.go`: a lone optional field.
A boolean-typed property emits the original flag spelling exactly when
the supplied value is the boolean `true`; a non-boolean property emits
the value's string form when non-empty. -/
def renderSingleOptionalField (bp : Blueprint) (name originalFlag : String)
    (params : List (String × Value)) : Bool × List String :=
  match findParamValue params name with
  | none => (false, [])
  | some v =>
    let props := (GenerateInputSchema bp).properties
    let isBool := match props.lookup (normalizeFieldName name) with
      | some s => s.type == "boolean"
      | none => false
    if isBool then
      match v with
      | Value.bool true =>
        if originalFlag ≠ "" then (true, [originalFlag])
        else (true, ["-" ++ name])
      | _ => (false, [])
    else
      let sv := valueToString v
      if sv = "" then (false, []) else (true, [sv])

/-- `renderShellWord` from `render.go`: skip a word whose only content is
unset optional fields; otherwise use the single-token fast paths (array
first, then optional) or the general concatenation path. -/
def renderShellWord (bp : Blueprint) (tokens : List Token)
    (params : List (String × Value)) : Bool × List String :=
  let fp := tokens.foldl (firstPassStep params) (false, true)
  if !fp.1 && fp.2 then (false, [])
  else
    match tokens with
    | [Token.field n _ req _ of] =>
      let props := (GenerateInputSchema bp).properties
      let isArrayProp := match props.lookup (normalizeFieldName n) with
        | some s => s.type == "array"
        | none => false
      if isArrayProp then renderArrayField n params
      else if !req then renderSingleOptionalField bp n of params
      else renderGeneral params tokens
    | _ => renderGeneral params tokens

/-- The argv-accumulation loop of `buildCommandArgsTokenized`: words that
should not be included, or whose rendering is empty, contribute
nothing. -/
def renderWords (bp : Blueprint) (params : List (String × Value)) :
    List (List Token) → List String
  | [] => []
  | w :: ws =>
    let r := renderShellWord bp w params
    (if r.1 then r.2 else []) ++ renderWords bp params ws

/-- Go's `%T` on the dynamic value types that can reach the type-mismatch
error message. -/
def goTypeName : Value → String
  | Value.str _ => "string"
  | Value.bool _ => "bool"
  | Value.arr _ => "[]interface \x7b\x7d"
  | Value.null => "<nil>"

/-- Is this value an array (the accepted `[]string` / `[]interface{}`
cases of the type validation)? -/
def isArrayValue : Value → Bool
  | Value.arr _ => true
  | _ => false

/-- One supplied parameter violates the array type check when its
normalized name resolves to an array-typed property but the value is not
an array. -/
def isArrayTypeViolation (schema : InputSchema) (p : String × Value) : Bool :=
  match schema.properties.lookup (normalizeFieldName p.1) with
  | some s => s.type == "array" && !isArrayValue p.2
  | none => false

/-- `buildCommandArgsTokenized` from `render.go`: validate required
parameters (first missing one errors), validate array-typed parameters
(Go iterates its map; modelled in insertion order — which parameter is
reported first is the only map-order-dependent aspect), then render every
shell word. -/
def buildCommandArgsTokenized (bp : Blueprint) (params : List (String × Value)) :
    Except String (List String) :=
  let inputSchema := GenerateInputSchema bp
  match inputSchema.required.find? (fun r => (findParamValue params r).isNone) with
  | some r => Except.error ("missing required parameter: " ++ r)
  | none =>
    match params.find? (isArrayTypeViolation inputSchema) with
    | some p =>
      Except.error ("parameter '" ++ p.1 ++ "' must be an array, got " ++ goTypeName p.2)
    | none => Except.ok (renderWords bp params bp.shellWords)

/-- `BuildCommandArgs` from `render.go` (delegates to the tokenized
implementation). -/
def BuildCommandArgs (bp : Blueprint) (params : List (String × Value)) :
    Except String (List String) :=
  buildCommandArgsTokenized bp params

/-- `renderFieldTokenForDisplay` from `types.go`: boolean flags display
their original spelling, arrays append the ellipsis, required fields use
double braces and everything else brackets; the description is never
consulted. -/
def renderFieldTokenForDisplay (name : String) (req isArr : Bool) (originalFlag : String) :
    String :=
  let n1 := if originalFlag ≠ "" then originalFlag else name
  let n2 := if isArr then n1 ++ "..." else n1
  if req then "\x7b\x7b" ++ n2 ++ "\x7d\x7d" else "[" ++ n2 ++ "]"

/-- `Token.String()` from `types.go`. -/
def tokenToString : Token → String
  | Token.text v => v
  | Token.field n _ req _ _ =>
    if req then "\x7b\x7b" ++ n ++ "\x7d\x7d" else "[" ++ n ++ "]"

/-- `renderTokensForDisplay` from `types.go`: a lone field token uses the
display form, a lone other token its `String()`, and mixed words
concatenate displays in order. -/
def renderTokensForDisplay (tokens : List Token) : String :=
  match tokens with
  | [Token.field n _ req arr of] => renderFieldTokenForDisplay n req arr of
  | [t] => tokenToString t
  | _ =>
    tokens.foldl
      (fun acc t =>
        match t with
        | Token.text v => acc ++ v
        | Token.field n _ req arr of => acc ++ renderFieldTokenForDisplay n req arr of)
      ""

/-- `GetCommandFormat` from `types.go`: every shell word's display form,
joined by spaces. -/
def GetCommandFormat (bp : Blueprint) : String :=
  joinWith " " (bp.shellWords.map renderTokensForDisplay)

/-- Convenience composition used by the surrounding server: build the
blueprint, then render (`FromArgs` + `BuildCommandArgs`). -/
def renderArgs (args : List String) (params : List (String × Value)) :
    Except String (List String) :=
  (FromArgs args).bind (fun bp => BuildCommandArgs bp params)

/-- Convenience composition: build the blueprint, then generate its input
schema. -/
def schemaOfArgs (args : List String) : Except String InputSchema :=
  (FromArgs args).map GenerateInputSchema

/-- Convenience composition: build the blueprint, then take its command
format. -/
def commandFormatOfArgs (args : List String) : Except String String :=
  (FromArgs args).map GetCommandFormat

/-- The name carried by a field token. -/
def tokenName? : Token → Option String
  | Token.field n _ _ _ _ => some n
  | Token.text _ => none

/-- All field-token names of a blueprint, in order. -/
def fieldNames (bp : Blueprint) : List String :=
  (bp.shellWords.flatten).filterMap tokenName?

/-- `k` would be picked up for field name `n` by the three-way lookup of
`findParamValue`: the exact name, its dash-to-underscore form, or (when
the name contains an underscore) its underscore-to-dash form. -/
def matchesLookup (k n : String) : Bool :=
  k == n || k == normalizeFieldName n ||
    (containsUnderscore n && k == denormalizeFieldName n)

-- Decidable equality for `Except` results, used to evaluate rendering
-- outcomes on concrete inputs.
deriving instance DecidableEq for Except

/-- The blueprint produced by `FromArgs ["echo", "{{required}}"]`. -/
def bpEchoRequired : Blueprint :=
  { baseCommand := "echo"
    shellWords := [[Token.text "echo"], [Token.field "required" "" true false ""]] }

/-- The blueprint produced by `FromArgs ["echo", "{{msg}}"]`. -/
def bpEchoMsg : Blueprint :=
  { baseCommand := "echo"
    shellWords := [[Token.text "echo"], [Token.field "msg" "" true false ""]] }

/-- The blueprint produced by `FromArgs ["echo", "{{x}}"]`. -/
def bpEchoX : Blueprint :=
  { baseCommand := "echo"
    shellWords := [[Token.text "echo"], [Token.field "x" "" true false ""]] }

/-! ## Helper lemmas -/

/-- Mapping strings into values and filtering the string elements back out
is the identity. -/
theorem filterMap_stringElem_map_str (l : List String) :
    (l.map Value.str).filterMap stringElem? = l := by
  induction l with
  | nil => rfl
  | cons h t ih => simp [stringElem?, ih]

/-- Looking a key up after appending one extra pair: the old result wins,
and the new pair answers only its own key. -/
theorem lookup_append_one (l : List (String × Value)) (k : String) (v : Value) (key : String) :
    (l ++ [(k, v)]).lookup key = ((l.lookup key).or (if key == k then some v else none)) := by
  induction l with
  | nil =>
    simp only [List.nil_append, List.lookup]
    cases hkc : key == k <;> simp [hkc]
  | cons h t ih =>
    simp only [List.cons_append, List.lookup]
    split <;> simp [ih]

/-- Appending a pair whose key the three-way lookup for `n` would never
probe leaves `findParamValue` unchanged. -/
theorem findParamValue_append (params : List (String × Value)) (k : String) (v : Value)
    (n : String) (h : matchesLookup k n = false) :
    findParamValue (params ++ [(k, v)]) n = findParamValue params n := by
  simp only [matchesLookup, Bool.or_eq_false_iff, Bool.and_eq_false_iff, beq_eq_false_iff_ne,
    ne_eq] at h
  obtain ⟨⟨h1, h2⟩, h3⟩ := h
  unfold findParamValue
  rw [lookup_append_one, lookup_append_one, lookup_append_one]
  have e1 : (if n == k then some v else (none : Option Value)) = none := by
    simp
    intro he
    exact h1 he.symm
  have e2 : (if normalizeFieldName n == k then some v else (none : Option Value)) = none := by
    simp
    intro he
    exact h2 he.symm
  rw [e1, e2]
  cases hcu : containsUnderscore n with
  | false => simp
  | true =>
    have h3' : ¬(k = denormalizeFieldName n) := by
      rcases h3 with h3 | h3
      · rw [hcu] at h3
        simp at h3
      · exact h3
    have e3 : (if denormalizeFieldName n == k then some v else (none : Option Value)) = none := by
      simp
      intro he
      exact h3' he.symm
    rw [e3]
    cases params.lookup n <;> cases params.lookup (normalizeFieldName n) <;> simp

/-- Dash-to-underscore replacement is idempotent (character level). -/
theorem mapD2U_idem (l : List Char) :
    (l.map dashToUnderscore).map dashToUnderscore = l.map dashToUnderscore := by
  induction l with
  | nil => rfl
  | cons c t ih =>
    simp only [List.map_cons, ih, List.cons.injEq, and_true]
    by_cases hc : c = '-' <;> simp [dashToUnderscore, hc]

/-- Underscore-to-dash after dash-to-underscore equals plain
underscore-to-dash: both send every dash or underscore to a dash. -/
theorem mapU2D_mapD2U (l : List Char) :
    (l.map dashToUnderscore).map underscoreToDash = l.map underscoreToDash := by
  induction l with
  | nil => rfl
  | cons c t ih =>
    simp only [List.map_cons, ih, List.cons.injEq, and_true]
    by_cases hc : c = '-' <;> by_cases hc2 : c = '_' <;>
      simp [dashToUnderscore, underscoreToDash, hc, hc2]

/-- Underscore-to-dash is the identity on underscore-free lists. -/
theorem mapU2D_id (l : List Char) (h : l.contains '_' = false) :
    l.map underscoreToDash = l := by
  induction l with
  | nil => rfl
  | cons c t ih =>
    simp only [List.contains_cons, Bool.or_eq_false_iff, beq_eq_false_iff_ne, ne_eq] at h
    simp only [List.map_cons]
    rw [ih h.2]
    simp [underscoreToDash]
    intro hc
    exact absurd hc.symm h.1

theorem toList_mk_eq (l : List Char) : (String.mk l).toList = l := rfl

theorem normalize_idem (s : String) :
    normalizeFieldName (normalizeFieldName s) = normalizeFieldName s := by
  simp only [normalizeFieldName, toList_mk_eq, mapD2U_idem]

theorem denorm_normalize (s : String) :
    denormalizeFieldName (normalizeFieldName s) = denormalizeFieldName s := by
  simp only [denormalizeFieldName, normalizeFieldName, toList_mk_eq, mapU2D_mapD2U]

theorem denorm_id (s : String) (h : containsUnderscore s = false) :
    denormalizeFieldName s = s := by
  simp only [denormalizeFieldName, mapU2D_id s.toList h]
  rfl

/-- A key that the three-way lookup would pick up for the normalized form
of `n` would also be picked up for `n` itself. -/
theorem matches_normalize (k n : String) (h : matchesLookup k (normalizeFieldName n) = true) :
    matchesLookup k n = true := by
  simp only [matchesLookup, Bool.or_eq_true, Bool.and_eq_true, beq_iff_eq] at h ⊢
  rcases h with (h | h) | ⟨hcu, h⟩
  · exact Or.inl (Or.inr h)
  · rw [normalize_idem] at h
    exact Or.inl (Or.inr h)
  · rw [denorm_normalize] at h
    cases hn : containsUnderscore n with
    | true => exact Or.inr ⟨rfl, h⟩
    | false =>
      rw [denorm_id n hn] at h
      exact Or.inl (Or.inl h)

/-- Folding with pointwise-equal step functions gives equal results. -/
theorem foldlExt {α β : Type} (f g : β → α → β) (l : List α)
    (h : ∀ b : β, ∀ a ∈ l, f b a = g b a) : ∀ init, l.foldl f init = l.foldl g init := by
  induction l with
  | nil =>
    intro init
    rfl
  | cons a t ih =>
    intro init
    simp only [List.foldl_cons]
    rw [h init a (by simp)]
    exact ih (fun b x hx => h b x (by simp [hx])) _

/-- `find?` with pointwise-equal predicates gives equal results. -/
theorem find?Ext {α : Type} (p q : α → Bool) (l : List α) (h : ∀ a ∈ l, p a = q a) :
    l.find? p = l.find? q := by
  induction l with
  | nil => rfl
  | cons a t ih =>
    rw [List.find?_cons, List.find?_cons, h a (by simp)]
    cases q a with
    | true => rfl
    | false => exact ih (fun x hx => h x (by simp [hx]))

/-- A schema-builder step only ever appends the normalized name of the
token it processes to the required list. -/
theorem schemaAddToken_required (acc : List (String × PropSchema) × List String) (t : Token)
    (r : String) (hr : r ∈ (schemaAddToken acc t).2) :
    r ∈ acc.2 ∨ ∃ n, tokenName? t = some n ∧ r = normalizeFieldName n := by
  cases t with
  | text v => exact Or.inl hr
  | field name desc req isArr of =>
    simp only [schemaAddToken] at hr
    have mem_or : ∀ _ : r ∈ acc.2 ++ [normalizeFieldName name],
        r ∈ acc.2 ∨ ∃ n, tokenName? (Token.field name desc req isArr of) = some n ∧
          r = normalizeFieldName n := by
      intro hx
      rcases List.mem_append.mp hx with hx | hx
      · exact Or.inl hx
      · exact Or.inr ⟨name, rfl, (List.mem_singleton.mp hx)⟩
    split at hr
    · dsimp only at hr
      split at hr
      · exact mem_or hr
      · exact Or.inl hr
    · split at hr
      · dsimp only at hr
        exact Or.inl hr
      · split at hr
        · dsimp only at hr
          split at hr
          · exact mem_or hr
          · exact Or.inl hr
        · dsimp only at hr
          split at hr
          · exact mem_or hr
          · exact Or.inl hr

/-- Every name in the required list accumulated over a token list is the
normalized name of some field token (or was already accumulated). -/
theorem schemaFold_required (ts : List Token) :
    ∀ acc : List (String × PropSchema) × List String,
      ∀ r ∈ (ts.foldl schemaAddToken acc).2,
        r ∈ acc.2 ∨ ∃ n ∈ ts.filterMap tokenName?, r = normalizeFieldName n := by
  induction ts with
  | nil =>
    intro acc r hr
    exact Or.inl hr
  | cons t ts ih =>
    intro acc r hr
    simp only [List.foldl_cons] at hr
    rcases ih (schemaAddToken acc t) r hr with h | ⟨n, hn, he⟩
    · rcases schemaAddToken_required acc t r h with h | ⟨n, hn, he⟩
      · exact Or.inl h
      · exact Or.inr ⟨n, by simp [List.filterMap_cons, hn], he⟩
    · refine Or.inr ⟨n, ?_, he⟩
      simp only [List.filterMap_cons]
      cases tokenName? t with
      | none => exact hn
      | some m =>
        simp only [List.mem_cons]
        exact Or.inr hn

/-- Every schema-required name is the normalized name of some field token
of the blueprint. -/
theorem required_sub (bp : Blueprint) (r : String)
    (hr : r ∈ (GenerateInputSchema bp).required) :
    ∃ n ∈ fieldNames bp, r = normalizeFieldName n := by
  have h := schemaFold_required (bp.shellWords.flatten) ([], []) r hr
  rcases h with h | h
  · cases h
  · exact h

/-- The first scanning pass depends on the parameters only through
`findParamValue` at the word's field names. -/
theorem firstPass_congr (P Q : List (String × Value)) (ts : List Token)
    (h : ∀ n ∈ ts.filterMap tokenName?, findParamValue P n = findParamValue Q n)
    (acc : Bool × Bool) :
    ts.foldl (firstPassStep P) acc = ts.foldl (firstPassStep Q) acc := by
  apply foldlExt
  intro b a ha
  cases a with
  | text v => rfl
  | field n d req arr of =>
    simp only [firstPassStep]
    rw [h n (List.mem_filterMap.mpr ⟨_, ha, rfl⟩)]

/-- The general concatenation path depends on the parameters only through
`findParamValue` at the word's field names. -/
theorem renderGeneral_congr (P Q : List (String × Value)) (ts : List Token)
    (h : ∀ n ∈ ts.filterMap tokenName?, findParamValue P n = findParamValue Q n) :
    renderGeneral P ts = renderGeneral Q ts := by
  unfold renderGeneral
  rw [foldlExt _ _ ts ?hfg]
  intro b a ha
  cases a with
  | text v => rfl
  | field n d req arr of =>
    simp only
    rw [h n (List.mem_filterMap.mpr ⟨_, ha, rfl⟩)]

theorem renderArrayField_congr (P Q : List (String × Value)) (n : String)
    (h : findParamValue P n = findParamValue Q n) :
    renderArrayField n P = renderArrayField n Q := by
  unfold renderArrayField
  rw [h]

theorem renderSingleOptionalField_congr (bp : Blueprint) (P Q : List (String × Value))
    (n of : String) (h : findParamValue P n = findParamValue Q n) :
    renderSingleOptionalField bp n of P = renderSingleOptionalField bp n of Q := by
  unfold renderSingleOptionalField
  rw [h]

/-- Rendering a shell word depends on the parameters only through
`findParamValue` at the word's field names. -/
theorem renderShellWord_congr (bp : Blueprint) (ts : List Token) (P Q : List (String × Value))
    (h : ∀ n ∈ ts.filterMap tokenName?, findParamValue P n = findParamValue Q n) :
    renderShellWord bp ts P = renderShellWord bp ts Q := by
  unfold renderShellWord
  rw [firstPass_congr P Q ts h]
  split
  · rename_i n d req arr of
    have hn : findParamValue P n = findParamValue Q n := h n (by simp [tokenName?])
    dsimp only
    split
    · rfl
    · split
      · exact renderArrayField_congr P Q n hn
      · split
        · exact renderSingleOptionalField_congr bp P Q n of hn
        · exact renderGeneral_congr P Q _ h
  · dsimp only
    split
    · rfl
    · exact renderGeneral_congr P Q _ h

/-- Rendering the word list depends on the parameters only through
`findParamValue` at the blueprint's field names. -/
theorem renderWords_congr (bp : Blueprint) (P Q : List (String × Value))
    (ws : List (List Token))
    (h : ∀ n ∈ (ws.flatten).filterMap tokenName?, findParamValue P n = findParamValue Q n) :
    renderWords bp P ws = renderWords bp Q ws := by
  induction ws with
  | nil => rfl
  | cons w ws ih =>
    simp only [renderWords]
    rw [renderShellWord_congr bp w P Q
        (fun n hn => h n (by
          simp only [List.flatten_cons, List.filterMap_append, List.mem_append]
          exact Or.inl hn)),
      ih (fun n hn => h n (by
          simp only [List.flatten_cons, List.filterMap_append, List.mem_append]
          exact Or.inr hn))]

/-! ## Claim theorems -/

/-- C1 counterexample: the blueprint built from
`["git", "status", "[args...]"]` has an `args` property of type `array`
with the default description, but `args` does NOT appear in the schema's
required list (`GenerateInputSchema` only marks a field required when its
token came from double-brace syntax), contradicting the claim that an
array placeholder's name always appears in `required`. -/
theorem optional_array_not_required_cex :
    (schemaOfArgs ["git", "status", "[args...]"]).map
        (fun s => (s.properties.lookup "args", s.required.contains "args")) =
      Except.ok
        (some { type := "array"
                description := "Additional command line arguments"
                items := some "string" },
          false) := by
  decide

/-- C1 (amended): an array placeholder produces a schema property of type
`array` with string items, with description defaulting to "Additional
command line arguments" when none is given; a `{{name...}}` array is added
to the required list, while a `[name...]` array is not — in particular the
blueprint built from `["git", "status", "[args...]"]` has an array-typed
`args` property with the default description that is not required. -/
theorem array_schema_required_only_for_braces :
    (schemaOfArgs ["git", "status", "[args...]"]).map
        (fun s => (s.properties.lookup "args", s.required)) =
      Except.ok
        (some { type := "array"
                description := "Additional command line arguments"
                items := some "string" },
          ([] : List String)) ∧
    (schemaOfArgs ["echo", "\x7b\x7bargs...\x7d\x7d"]).map
        (fun s => (s.properties.lookup "args", s.required)) =
      Except.ok
        (some { type := "array"
                description := "Additional command line arguments"
                items := some "string" },
          ["args"]) ∧
    (schemaOfArgs ["ls", "[files...#Files to list]"]).map
        (fun s => s.properties.lookup "files") =
      Except.ok
        (some { type := "array"
                description := "Files to list"
                items := some "string" }) := by
  refine ⟨by decide, by decide, by decide⟩

/-- C2: rendering a blueprint whose template word is a standalone array
placeholder splices each element of the supplied array as its own argv
entry (empty array: no entry), and an absent array contributes no entry:
`["echo", "[files...]"]` rendered with any string array `files` yields
`"echo"` followed by exactly the elements of `files`, and rendered with no
parameters yields `["echo"]`. -/
theorem array_field_splices :
    (∀ files : List String,
      renderArgs ["echo", "[files...]"] [("files", Value.arr (files.map Value.str))] =
        Except.ok ("echo" :: files)) ∧
    renderArgs ["echo", "[files...]"] [] = Except.ok ["echo"] := by
  refine ⟨fun files => ?_, by decide⟩
  cases files with
  | nil => decide
  | cons f fs =>
    have h : renderArgs ["echo", "[files...]"]
        [("files", Value.arr ((f :: fs).map Value.str))] =
        Except.ok ("echo" :: f :: (List.filterMap stringElem? (fs.map Value.str) ++ [])) := rfl
    rw [h, List.append_nil, filterMap_stringElem_map_str]

/-- C3: tokenization is total — every input string tokenizes to a
non-empty token sequence — and malformed placeholder syntax (an unmatched
opener such as `{{incomplete`, or an empty name such as `{{}}`) degrades to
a literal text token, so `["echo", "{{incomplete"]` renders unchanged. -/
theorem tokenizer_total_and_malformed_literal :
    (∀ w : String, tokenizeShellWord w ≠ []) ∧
    tokenizeShellWord "\x7b\x7bincomplete" = [Token.text "\x7b\x7bincomplete"] ∧
    tokenizeShellWord "\x7b\x7b\x7d\x7d" = [Token.text "\x7b\x7b\x7d\x7d"] ∧
    renderArgs ["echo", "\x7b\x7bincomplete"] [] =
      Except.ok ["echo", "\x7b\x7bincomplete"] := by
  refine ⟨fun w => ?_, by decide, by decide, by decide⟩
  have h : tokenizeShellWord w = (if (tokenizeLoop w.toList.length w.toList).isEmpty then
      [Token.text w] else tokenizeLoop w.toList.length w.toList) := rfl
  rw [h]
  split
  · simp
  · rename_i hne
    simp at hne
    exact hne

/-- C4: for every blueprint and value map, if some name in the schema's
required list has no entry in the value map under the three-way lookup,
rendering fails with a "missing required parameter" error naming a missing
required parameter instead of producing an argv. -/
theorem missing_required_parameter_error (bp : Blueprint) (params : List (String × Value))
    (r : String) (hr : r ∈ (GenerateInputSchema bp).required)
    (hmiss : findParamValue params r = none) :
    ∃ rr, BuildCommandArgs bp params = Except.error ("missing required parameter: " ++ rr) ∧
      rr ∈ (GenerateInputSchema bp).required ∧ findParamValue params rr = none := by
  have hsome : ((GenerateInputSchema bp).required.find?
      (fun x => (findParamValue params x).isNone)).isSome := by
    rw [List.find?_isSome]
    exact ⟨r, hr, by simp [hmiss]⟩
  obtain ⟨rr, hrr⟩ := Option.isSome_iff_exists.mp hsome
  refine ⟨rr, ?_, List.mem_of_find?_eq_some hrr, ?_⟩
  · unfold BuildCommandArgs buildCommandArgsTokenized
    dsimp only
    rw [hrr]
  · have hp := List.find?_some hrr
    simpa using hp

/-- C4 witness: `["echo", "{{required}}"]` rendered with `{}` fails with
the missing-required-parameter error naming `required`. -/
theorem missing_required_parameter_error_witness :
    FromArgs ["echo", "\x7b\x7brequired\x7d\x7d"] = Except.ok bpEchoRequired ∧
    BuildCommandArgs bpEchoRequired [] = Except.error "missing required parameter: required" ∧
    ∃ rr, BuildCommandArgs bpEchoRequired [] =
        Except.error ("missing required parameter: " ++ rr) ∧
      rr ∈ (GenerateInputSchema bpEchoRequired).required ∧ findParamValue [] rr = none :=
  ⟨by decide, by decide,
    missing_required_parameter_error bpEchoRequired [] "required" (by decide) (by rfl)⟩

/-- C5: for the blueprint `["ls", "[-f]"]` whose second word is a single
boolean-flag placeholder, rendering emits exactly the original
dash-prefixed spelling `-f` when `f` is the boolean `true`, and
contributes no argv entry when `f` is `false` or absent. -/
theorem boolean_flag_rendering :
    (∀ b : Bool, renderArgs ["ls", "[-f]"] [("f", Value.bool b)] =
      Except.ok (if b then ["ls", "-f"] else ["ls"])) ∧
    renderArgs ["ls", "[-f]"] [] = Except.ok ["ls"] := by
  refine ⟨fun b => ?_, by decide⟩
  cases b <;> decide

/-- C6: a field declared with dashes is satisfied by a key with
underscores and vice versa, and the rendered argv is the same whichever
spelling the caller supplies: for every value `v`, rendering
`["echo", "{{my-var}}"]` (resp. `["echo", "{{my_var}}"]`) with key
`my_var` equals rendering it with key `my-var`, and the concrete renders
succeed with the substituted value. -/
theorem dash_underscore_equivalence :
    (∀ v : String,
      renderArgs ["echo", "\x7b\x7bmy-var\x7d\x7d"] [("my_var", Value.str v)] =
        renderArgs ["echo", "\x7b\x7bmy-var\x7d\x7d"] [("my-var", Value.str v)]) ∧
    (∀ v : String,
      renderArgs ["echo", "\x7b\x7bmy_var\x7d\x7d"] [("my-var", Value.str v)] =
        renderArgs ["echo", "\x7b\x7bmy_var\x7d\x7d"] [("my_var", Value.str v)]) ∧
    renderArgs ["echo", "\x7b\x7bmy-var\x7d\x7d"] [("my_var", Value.str "x")] =
      Except.ok ["echo", "x"] ∧
    renderArgs ["echo", "\x7b\x7bmy_var\x7d\x7d"] [("my-var", Value.str "x")] =
      Except.ok ["echo", "x"] :=
  ⟨fun _ => rfl, fun _ => rfl, by decide, by decide⟩

/-- C7 counterexample: the blueprint built from `["echo", "{{args...}}"]`
has an array-typed property `args`, yet its command format is
`"echo {{args...}}"`, not `"echo [args...]"` — refuting the claim that
array fields display as `[name...]`. -/
theorem required_array_display_cex :
    (schemaOfArgs ["echo", "\x7b\x7bargs...\x7d\x7d"]).map
        (fun s => (s.properties.lookup "args").map PropSchema.type) =
      Except.ok (some "array") ∧
    commandFormatOfArgs ["echo", "\x7b\x7bargs...\x7d\x7d"] =
      Except.ok "echo \x7b\x7bargs...\x7d\x7d" ∧
    ("echo \x7b\x7bargs...\x7d\x7d" : String) ≠ "echo [args...]" := by
  refine ⟨by decide, by decide, by decide⟩

/-- C7 (amended): the command-format string re-serializes every shell word
from its tokens with descriptions stripped — required scalars as
`{{name}}`, optional scalars as `[name]`, optional arrays as `[name...]`,
required arrays as `{{name...}}`, boolean flags as their bracketed
original spelling — joined by spaces; in particular the blueprint built
from `["echo", "{{text#say}}"]` has command format `"echo {{text}}"`. -/
theorem command_format_display :
    (∀ (name d1 d2 : String) (req arr : Bool) (of : String),
      renderTokensForDisplay [Token.field name d1 req arr of] =
        renderTokensForDisplay [Token.field name d2 req arr of]) ∧
    commandFormatOfArgs ["echo", "\x7b\x7btext#say\x7d\x7d"] =
      Except.ok "echo \x7b\x7btext\x7d\x7d" ∧
    commandFormatOfArgs ["echo", "[opt#d]"] = Except.ok "echo [opt]" ∧
    commandFormatOfArgs ["git", "[args...]"] = Except.ok "git [args...]" ∧
    commandFormatOfArgs ["echo", "\x7b\x7bargs...\x7d\x7d"] =
      Except.ok "echo \x7b\x7bargs...\x7d\x7d" ∧
    commandFormatOfArgs ["ls", "[-f#force removal]"] = Except.ok "ls [-f]" :=
  ⟨fun _ _ _ _ _ _ => rfl, by decide, by decide, by decide, by decide, by decide⟩

/-- C8 counterexample: the first argv element is tokenized like every
other word — `["{{x}}", "y"]` yields a field token for the first word, a
schema property `x` that is required, and a render output `["hello", "y"]`
that does not begin with the base command `{{x}}` — contradicting the
claim that the first element contributes no schema properties or field
tokens. -/
theorem first_word_tokenized_cex :
    (FromArgs ["\x7b\x7bx\x7d\x7d", "y"]).map Blueprint.shellWords =
      Except.ok [[Token.field "x" "" true false ""], [Token.text "y"]] ∧
    (schemaOfArgs ["\x7b\x7bx\x7d\x7d", "y"]).map InputSchema.required = Except.ok ["x"] ∧
    renderArgs ["\x7b\x7bx\x7d\x7d", "y"] [("x", Value.str "hello")] =
      Except.ok ["hello", "y"] ∧
    ("hello" : String) ≠ "\x7b\x7bx\x7d\x7d" := by
  refine ⟨by decide, by decide, by decide, by decide⟩

/-- C8 (amended): every argv element, the first included, is tokenized
into a shell word; when the first element is pure literal text (its
tokenization is a single text token), every successful render output
begins with it. -/
theorem literal_base_heads_output (cmd : String) (rest : List String) (bp : Blueprint)
    (params : List (String × Value)) (out : List String)
    (hbp : FromArgs (cmd :: rest) = Except.ok bp)
    (hlit : tokenizeShellWord cmd = [Token.text cmd])
    (hout : BuildCommandArgs bp params = Except.ok out) :
    ∃ tl, out = cmd :: tl := by
  have hfa : FromArgs (cmd :: rest) =
      (if goTrimSpace cmd = "" then
        Except.error "cannot create blueprint: empty command provided"
      else Except.ok
        { baseCommand := cmd, shellWords := (cmd :: rest).map tokenizeShellWord }) := rfl
  rw [hfa] at hbp
  split at hbp
  · cases hbp
  · injection hbp with hbp
    subst hbp
    unfold BuildCommandArgs buildCommandArgsTokenized at hout
    dsimp only at hout
    split at hout
    · cases hout
    · split at hout
      · cases hout
      · injection hout with hout
        refine ⟨renderWords
          { baseCommand := cmd, shellWords := (cmd :: rest).map tokenizeShellWord }
          params (rest.map tokenizeShellWord), ?_⟩
        rw [← hout]
        simp only [List.map_cons, hlit, renderWords]
        rfl

/-- C8 witness: with base command `echo` (pure literal) and template word
`{{x}}`, the successful render `["echo", "hi"]` begins with `echo`. -/
theorem literal_base_heads_output_witness :
    FromArgs ["echo", "\x7b\x7bx\x7d\x7d"] = Except.ok bpEchoX ∧
    tokenizeShellWord "echo" = [Token.text "echo"] ∧
    BuildCommandArgs bpEchoX [("x", Value.str "hi")] = Except.ok ["echo", "hi"] ∧
    ∃ tl, ["echo", "hi"] = "echo" :: tl :=
  ⟨by decide, by decide, by decide,
    literal_base_heads_output "echo" ["\x7b\x7bx\x7d\x7d"] bpEchoX [("x", Value.str "hi")]
      ["echo", "hi"] (by decide) (by decide) (by decide)⟩

/-- C9: required-parameter validation checks presence only — the
blueprint built from `["echo", "{{message}}"]` has `message` in its
required list, yet rendering with `message` supplied as the empty string
succeeds, the word contributes no argv entry, and the result is
`["echo"]`. -/
theorem empty_required_value_renders :
    (schemaOfArgs ["echo", "\x7b\x7bmessage\x7d\x7d"]).map InputSchema.required =
      Except.ok ["message"] ∧
    renderArgs ["echo", "\x7b\x7bmessage\x7d\x7d"] [("message", Value.str "")] =
      Except.ok ["echo"] := by
  refine ⟨by decide, by decide⟩

/-- C10: extra supplied keys are ignored — appending a key that matches no
field name under the three-way lookup and whose dash-to-underscore form is
not an array-typed schema property leaves the render result unchanged
(same argv on success and same error otherwise). -/
theorem extra_keys_ignored (bp : Blueprint) (params : List (String × Value)) (k : String)
    (v : Value)
    (hfresh : ∀ n ∈ fieldNames bp, matchesLookup k n = false)
    (harr : ((GenerateInputSchema bp).properties.lookup (normalizeFieldName k)).all
        (fun s => s.type != "array") = true) :
    BuildCommandArgs bp (params ++ [(k, v)]) = BuildCommandArgs bp params := by
  have hfpv : ∀ n ∈ fieldNames bp,
      findParamValue (params ++ [(k, v)]) n = findParamValue params n :=
    fun n hn => findParamValue_append params k v n (hfresh n hn)
  have hreq : ∀ r ∈ (GenerateInputSchema bp).required,
      findParamValue (params ++ [(k, v)]) r = findParamValue params r := by
    intro r hr
    obtain ⟨n, hn, he⟩ := required_sub bp r hr
    refine findParamValue_append params k v r ?_
    cases hm : matchesLookup k r with
    | false => rfl
    | true =>
      rw [he] at hm
      have h2 := matches_normalize k n hm
      rw [hfresh n hn] at h2
      cases h2
  unfold BuildCommandArgs buildCommandArgsTokenized
  dsimp only
  rw [find?Ext (fun r => (findParamValue (params ++ [(k, v)]) r).isNone)
      (fun r => (findParamValue params r).isNone) (GenerateInputSchema bp).required
      (fun r hr => by dsimp only; rw [hreq r hr])]
  cases hX : (GenerateInputSchema bp).required.find?
      (fun r => (findParamValue params r).isNone) with
  | some r => rfl
  | none =>
    have hkv : isArrayTypeViolation (GenerateInputSchema bp) (k, v) = false := by
      unfold isArrayTypeViolation
      cases hlk : (GenerateInputSchema bp).properties.lookup (normalizeFieldName k) with
      | none => rfl
      | some s =>
        rw [hlk] at harr
        simp only [Option.all_some, bne_iff_ne, ne_eq] at harr
        simp [harr]
    rw [List.find?_append]
    have hone : List.find? (isArrayTypeViolation (GenerateInputSchema bp)) [(k, v)] = none := by
      simp [List.find?_cons, hkv]
    rw [hone, Option.or_none]
    cases hY : params.find? (isArrayTypeViolation (GenerateInputSchema bp)) with
    | some p => rfl
    | none =>
      rw [renderWords_congr bp (params ++ [(k, v)]) params bp.shellWords hfpv]

/-- C10 witness: adding the fresh key `extra` to the parameters of
`["echo", "{{msg}}"]` leaves the successful render `["echo", "hi"]`
unchanged. -/
theorem extra_keys_ignored_witness :
    (∀ n ∈ fieldNames bpEchoMsg, matchesLookup "extra" n = false) ∧
    ((GenerateInputSchema bpEchoMsg).properties.lookup (normalizeFieldName "extra")).all
        (fun s => s.type != "array") = true ∧
    BuildCommandArgs bpEchoMsg ([("msg", Value.str "hi")] ++ [("extra", Value.str "zzz")]) =
      BuildCommandArgs bpEchoMsg [("msg", Value.str "hi")] ∧
    BuildCommandArgs bpEchoMsg [("msg", Value.str "hi")] = Except.ok ["echo", "hi"] :=
  ⟨by decide, by decide,
    extra_keys_ignored bpEchoMsg [("msg", Value.str "hi")] "extra" (Value.str "zzz")
      (by decide) (by decide), by decide⟩

end Studio
